import Mathlib

/-!
Verification development for the LWA quick-processing pipeline repository
(pipeline orchestration, container mount-path resolution, parset generation,
self-calibration loop, solution-outlier reset, and newest-file discovery).

Paths are modelled as lists of path components below the filesystem root:
the absolute path /data/a/raw.ms is the list ["data", "a", "raw.ms"] and the
root "/" is the empty list.  Machine floats in the solution tables are
modelled as exact rationals together with an explicit NaN value.
-/

/-- Absolute filesystem path, as its list of components below the root. -/
abbrev AbsPath := List String

/-- Longest common component prefix of two paths (the two-path core of
the os.path.commonpath computation used in pipeline_quick_proc_img.py). -/
def commonPrefix2 : List String → List String → List String
  | a :: as, b :: bs => if a = b then a :: commonPrefix2 as bs else []
  | _, _ => []

/-- Embedding of os.path.commonpath on absolute paths: the longest common
component prefix of all paths in the list; the call raises (none) on an
empty input list. -/
def commonpath : List AbsPath → Option AbsPath
  | [] => none
  | p :: ps => some (ps.foldl commonPrefix2 p)

/-- Embedding of pathlib Path.parent: drop the final component. -/
def pathParent (p : AbsPath) : AbsPath := p.dropLast

/-- Embedding of pathlib Path.relative_to: the remaining components when
root is a component prefix, and a raised ValueError (none) otherwise. -/
def relativeTo (p root : AbsPath) : Option (List String) :=
  if root.isPrefixOf p then some (p.drop root.length) else none

/-- Rendering of a relative path (a component list) as a string, components
joined by "/", exactly as pathlib prints a relative PurePath. -/
def renderRel : List String → String
  | [] => ""
  | [c] => c
  | c :: c2 :: cs => c ++ "/" ++ renderRel (c2 :: cs)

/-- Rendering of an absolute path as a string; the root itself prints as "/". -/
def renderAbs (p : AbsPath) : String := "/" ++ renderRel p

/-- Test for a leading path separator in a rendered path string. -/
def hasLeadingSep (s : String) : Bool :=
  match s.data with
  | [] => false
  | c :: _ => c == '/'

/-- Embedding of the Python str.startswith test: the candidate is an initial
segment of the character sequence. -/
def pyStartsWith (s pre : String) : Bool := pre.data.isPrefixOf s.data

/-- Mount resolution of run_dp3_subtract in pipeline_quick_proc_img.py
(lines 239 to 252): the mount root is os.path.commonpath of the parent
directories of the input MS, output MS and source list, and each path is
translated with Path.relative_to from that root. -/
def run_dp3_subtract_mount (inputMs outputMs sourceList : AbsPath) :
    Option (AbsPath × List String × List String × List String) :=
  match commonpath [pathParent inputMs, pathParent outputMs, pathParent sourceList] with
  | none => none
  | some cp =>
    match relativeTo inputMs cp, relativeTo outputMs cp, relativeTo sourceList cp with
    | some ri, some ro, some rs => some (cp, ri, ro, rs)
    | _, _, _ => none

/-- Three-way common component prefix loop of subtract_sources_dp3 in
src/script/subtract_sources.py (lines 50 to 65), run over the full component
sequences of the three paths.  The leading "/" component of the Python
Path.parts tuple is implicit here: the empty result denotes the filesystem
root, which is also what the Python fallback branch Path("/") produces. -/
def commonParts3 : List String → List String → List String → List String
  | a :: as, b :: bs, c :: cs =>
    if a = b ∧ b = c then a :: commonParts3 as bs cs else []
  | _, _, _ => []

/-- Mount resolution of subtract_sources_dp3 in src/script/subtract_sources.py:
common prefix of the ms, source and output paths, then Path.relative_to of
each from that common parent. -/
def subtract_sources_mount (msFile sourceFile outputMs : AbsPath) :
    Option (AbsPath × List String × List String × List String) :=
  let cp := commonParts3 msFile sourceFile outputMs
  match relativeTo msFile cp, relativeTo sourceFile cp, relativeTo outputMs cp with
  | some rm, some rs, some ro => some (cp, rm, rs, ro)
  | _, _, _ => none

/-- Mount resolution of phaseshift_to_sun in src/phaseshift_to_sun.py
(lines 44 to 60): the mount root is the parent directory of the input MS,
replaced by the filesystem root when the rendered output path does not
start (as a string, via str.startswith) with the rendered parent; both
paths are then translated with Path.relative_to, which raises ValueError
(here the error value) when the chosen root is not a component prefix. -/
def phaseshift_mount (msFile outputMs : AbsPath) :
    Except String (AbsPath × List String × List String) :=
  let par := pathParent msFile
  let cp := if pyStartsWith (renderAbs outputMs) (renderAbs par) then par else []
  match relativeTo msFile cp, relativeTo outputMs cp with
  | some rm, some ro => Except.ok (cp, rm, ro)
  | _, _ => Except.error "ValueError: path is not relative to mount root"

/-- Parset text built by run_applycal_dp3 in pipeline_quick_proc_img.py
(lines 208 to 215): the f-string literal followed by one correction line
per calibration entry, reproduced byte for byte. -/
def applycal_parset (msinRel msoutRel solutionFname : String)
    (calEntryLst : List String) : String :=
  "msin = " ++ msinRel ++ "\n" ++
  "msout = " ++ msoutRel ++ "\n" ++
  "steps = [applycal]\n" ++
  "applycal.parmdb = " ++ solutionFname ++ "\n" ++
  "applycal.steps = [ " ++ String.intercalate ", " calEntryLst ++ " ] \n\n" ++
  String.join (calEntryLst.map
    (fun e => "applycal." ++ e ++ ".correction=" ++ e ++ "000 \n"))

/-- Observable filesystem and process events of one parset-writing stage
invocation. -/
inductive Ev where
  | writeParset : Ev
  | runTool : Nat → Ev
  | unlinkParset : Ev
  | exitProc : Nat → Ev
deriving DecidableEq

/-- Event trace of run_dp3_flag_avg in pipeline_quick_proc_img.py
(lines 83 to 97): the parset is written, DP3 runs, and the finally block
unlinks the parset on the success path and on the failure path alike (the
sys.exit call raises SystemExit, so the finally block still runs before
the process exits). -/
def pipeline_run_dp3_flag_avg_events (code : Nat) : List Ev :=
  [Ev.writeParset, Ev.runTool code] ++
    (if code = 0 then [Ev.unlinkParset] else [Ev.unlinkParset, Ev.exitProc 1])

/-- Event trace of run_dp3_flag_avg in src/dev_src/run_dp3_flag_avg.py
(lines 78 to 90): the parset is unlinked inside the try block only after a
successful run; the except branch prints and exits without any unlink. -/
def dev_run_dp3_flag_avg_events (code : Nat) : List Ev :=
  [Ev.writeParset, Ev.runTool code] ++
    (if code = 0 then [Ev.unlinkParset] else [Ev.exitProc 1])

/-- Event trace of SelfCalPipeline.run_dp3_calibration in
src/dev_src/selfcal_pipeline.py (lines 221 to 240): the per-round parset
cal_iter_N.parset is written and never unlinked; on failure the
CalledProcessError propagates. -/
def selfcal_run_dp3_calibration_events (code : Nat) : List Ev :=
  [Ev.writeParset, Ev.runTool code]

/-- Whether the transient parset file still exists after a trace. -/
def parsetAfter (evs : List Ev) : Bool :=
  evs.foldl
    (fun b e =>
      match e with
      | Ev.writeParset => true
      | Ev.unlinkParset => false
      | _ => b)
    false

/-- Sequential fail-fast stage execution: stages run in order, each later
stage runs only if every earlier one succeeded; the result is the list of
invoked stages and whether the whole sequence succeeded. -/
def runStages {α : Type} (ok : α → Bool) : List α → List α × Bool
  | [] => ([], true)
  | s :: rest =>
    if ok s then
      let r := runStages ok rest
      (s :: r.1, r.2)
    else ([s], false)

/-- Container-backed stages of run_pipeline in pipeline_quick_proc_img.py,
in source order (the DEBUG diagnostic imaging runs with DEBUG = True as in
the source; the local source-masking library call is an excluded external
collaborator). -/
inductive PStage where
  | casaApplycal : PStage
  | dp3FlagAvg : PStage
  | wscleanSelfcal : PStage
  | gaincal : PStage
  | applycalDP3 : PStage
  | wscleanSource : PStage
  | dp3Subtract : PStage
  | phaseshiftSun : PStage
  | wscleanFinal : PStage
  | wscleanDebug : PStage
deriving DecidableEq

/-- Fixed stage order of run_pipeline in pipeline_quick_proc_img.py. -/
def pipelineStageSeq : List PStage :=
  [PStage.casaApplycal, PStage.dp3FlagAvg, PStage.wscleanSelfcal,
   PStage.gaincal, PStage.applycalDP3, PStage.wscleanSource,
   PStage.dp3Subtract, PStage.phaseshiftSun, PStage.wscleanFinal,
   PStage.wscleanDebug]

/-- Entry point main of pipeline_quick_proc_img.py (lines 416 to 439):
positional arguments raw MS, gaintable and an optional output prefix;
usage error or a missing input file exits 1 before any stage runs; each
stage helper calls sys.exit(1) on a nonzero tool exit (or lets the raised
error escape, which also terminates the process nonzero), so execution is
fail-fast.  The result is (process exit code, invoked stages, output
prefix used). -/
def pqpMain (argv : List String) (fileExists : String → Bool)
    (codes : PStage → Nat) : Nat × List PStage × String :=
  if argv.length < 3 then (1, [], "")
  else
    let rawMs := argv.getD 1 ""
    let gaintable := argv.getD 2 ""
    let outputPrefix := if 3 < argv.length then argv.getD 3 "" else "proc"
    if fileExists rawMs = false then (1, [], outputPrefix)
    else if fileExists gaintable = false then (1, [], outputPrefix)
    else
      let r := runStages (fun s => codes s == 0) pipelineStageSeq
      ((if r.2 then 0 else 1), r.1, outputPrefix)

/-- Stages of the dev self-calibration pipeline
(src/dev_src/selfcal_pipeline.py): podman check, image pull, the two tool
tests, the initial wsclean image, then per round a DP3 calibration and a
wsclean imaging step. -/
inductive SCStage where
  | podmanCheck : SCStage
  | pullImage : SCStage
  | testDP3 : SCStage
  | testWsclean : SCStage
  | initialImage : SCStage
  | calRound : Nat → SCStage
  | imageRound : Nat → SCStage
deriving DecidableEq

/-- Stage order of SelfCalPipeline.run_selfcal_pipeline for a configured
number of self-calibration iterations. -/
def scStageSeq (n : Nat) : List SCStage :=
  [SCStage.podmanCheck, SCStage.pullImage, SCStage.testDP3,
   SCStage.testWsclean, SCStage.initialImage] ++
    ((List.range' 1 n).map (fun i => [SCStage.calRound i, SCStage.imageRound i])).flatten

/-- Fail-fast execution of the self-calibration pipeline: a nonzero stage
code either raises (propagating to the except branch of main) or returns
False, and in both cases no later stage runs. -/
def scRun (codes : SCStage → Nat) (n : Nat) : List SCStage × Bool :=
  runStages (fun s => codes s == 0) (scStageSeq n)

/-- Process exit code of main in src/dev_src/selfcal_pipeline.py
(lines 316 to 341): 0 after a fully successful run, 1 otherwise. -/
def scExitCode (codes : SCStage → Nat) (n : Nat) : Nat :=
  if (scRun codes n).2 then 0 else 1

/-- Report persistence of main in src/dev_src/selfcal_pipeline.py:
generate_report is called only in the success branch, and the written
report carries the fixed status string "completed"; on any failure no
report file is written (none). -/
def scReportStatus (codes : SCStage → Nat) (n : Nat) : Option String :=
  if (scRun codes n).2 then some "completed" else none

/-- Stage-code environment in which the round-1 DP3 calibration returns
exit code 1 and every other stage succeeds. -/
def scFailCal1 : SCStage → Nat
  | SCStage.calRound 1 => 1
  | _ => 0

/-- One round of the self-calibration loop: its round index, the input
measurement set name and the output (applied) measurement set name. -/
structure SCRound where
  idx : Nat
  input : String
  output : String
deriving DecidableEq

/-- Per-round output measurement set name of
SelfCalPipeline.run_selfcal_pipeline (line 268): the stem of the original
input MS followed by _cal_iter_, the round index, and .ms. -/
def calOutputName (stem : String) (i : Nat) : String :=
  stem ++ "_cal_iter_" ++ toString i ++ ".ms"

/-- Recursive core of the self-calibration loop (lines 262 to 279 of
src/dev_src/selfcal_pipeline.py): with k rounds left and next round index
i, each round consumes the current MS, produces the round-indexed output
MS, and threads that output into the next round; the second component is
the final current MS. -/
def selfcalLoopAux (stem : String) : Nat → Nat → String → List SCRound × String
  | 0, _, cur => ([], cur)
  | Nat.succ k, i, cur =>
    let out := calOutputName stem i
    let r := selfcalLoopAux stem k (i + 1) out
    (⟨i, cur, out⟩ :: r.1, r.2)

/-- Self-calibration loop of SelfCalPipeline.run_selfcal_pipeline: rounds
1 to n starting from the original input MS.  The result is the list of
performed rounds and the final current measurement set. -/
def selfcalLoop (msName stem : String) (n : Nat) : List SCRound × String :=
  selfcalLoopAux stem n 1 msName

/-- Floating-point value of a solution table, modelled as an exact rational
or NaN. -/
inductive FVal where
  | nan : FVal
  | val : ℚ → FVal
deriving DecidableEq

/-- Numeric (non-NaN) values of a slice, in order. -/
def numVals (slice : List FVal) : List ℚ :=
  slice.filterMap (fun v => match v with | FVal.nan => none | FVal.val q => some q)

/-- Embedding of np.nanmean on a slice: the mean of the numeric entries,
NaN (none) when every entry is NaN. -/
def nanmean (slice : List FVal) : Option ℚ :=
  let xs := numVals slice
  if xs.length = 0 then none else some (xs.sum / (xs.length : ℚ))

/-- Embedding of the square of np.nanstd on a slice (population variance,
ddof 0): the mean of the squared deviations of the numeric entries from
the nanmean. -/
def nanvar (slice : List FVal) : Option ℚ :=
  match nanmean slice with
  | none => none
  | some m =>
    let xs := numVals slice
    some ((xs.map (fun x => (x - m) ^ 2)).sum / (xs.length : ℚ))

/-- Outlier test of reset_solution_outliers in pipeline_quick_proc_img.py
(lines 176 to 179).  The source tests
amp > mean + N * std or amp < mean - N * std with std the square root of
the variance; over the rationals this two-sided test is stated in its
equivalent (for 0 <= N) squared form N ^ 2 * var < (amp - mean) ^ 2.
Comparisons against NaN are false, so NaN entries and all-NaN slices are
never outliers, matching NumPy. -/
def isOutlier (nSigma : ℚ) (slice : List FVal) (v : FVal) : Bool :=
  match v, nanmean slice, nanvar slice with
  | FVal.val q, some m, some s2 => decide (nSigma ^ 2 * s2 < (q - m) ^ 2)
  | _, _, _ => false

/-- Solution-table amplitude and weight arrays with their shape: axes are
time, frequency, antenna and polarization, as in the h5 file. -/
structure SolArr where
  T : Nat
  F : Nat
  A : Nat
  P : Nat
  amp : Fin T → Fin F → Fin A → Fin P → FVal
  weight : Fin T → Fin F → Fin A → Fin P → FVal

/-- Antenna-axis slice amp[i, j, :, k] used for the per-(time, frequency,
polarization) statistics. -/
def antSlice (s : SolArr) (i : Fin s.T) (j : Fin s.F) (k : Fin s.P) : List FVal :=
  List.ofFn (fun a => s.amp i j a k)

/-- Embedding of reset_solution_outliers in pipeline_quick_proc_img.py
(lines 167 to 193): for every (time, frequency, polarization) triple the
entries of the antenna slice lying outside the nSigma band around the
slice nanmean have their amplitude set to NaN (or to 1 when reset is
false) and their weight set to 0; all other entries are untouched.  The
nested Python loops mutate pairwise disjoint slices and each slice
statistic is computed before that slice is mutated, so the in-place update
equals this functional one. -/
def reset_solution_outliers (nSigma : ℚ) (reset : Bool) (s : SolArr) : SolArr :=
  { s with
    amp := fun i j a k =>
      if isOutlier nSigma (antSlice s i j k) (s.amp i j a k) then
        (if reset then FVal.nan else FVal.val 1)
      else s.amp i j a k,
    weight := fun i j a k =>
      if isOutlier nSigma (antSlice s i j k) (s.amp i j a k) then FVal.val 0
      else s.weight i j a k }

/-- Sorting of a list of names, as the Python builtin sorted does on
strings (ascending lexicographic order; any correct sort of a linearly
ordered list yields the same list). -/
def sortStr (l : List String) : List String :=
  List.insertionSort (· ≤ ·) l

/-- Greatest element of a list of names, written the way the claim reads:
the lexicographically greatest entry, none for an empty list. -/
def maxStr : List String → Option String
  | [] => none
  | x :: xs => some (xs.foldl max x)

/-- Entry of an hour directory listing: its name, whether it is a
directory, and (for directories) the names os.listdir would return
inside it. -/
structure HourEntry where
  name : String
  isDir : Bool
  files : List String
deriving DecidableEq

/-- Entry of the top-level data directory listing: its name, whether it is
a directory, and its own listing. -/
structure DateEntry where
  name : String
  isDir : Bool
  hours : List HourEntry
deriving DecidableEq

/-- Embedding of os.path.join for one further component. -/
def pjoin (a b : String) : String := a ++ "/" ++ b

/-- Embedding of get_newest_file in src/realtime_quick.py (lines 9 to 42):
sort the subdirectory names of the data directory and take the last, do
the same one level down, then sort every entry name of that hour directory
and take the last; each empty listing raises ValueError (the error value).
Selection is purely by name sort; no modification time is consulted.  The
find-by-name steps model the os.path.join plus os.listdir round trip
through the chosen name. -/
def get_newest_file (dataDir : String) (entries : List DateEntry) :
    Except String String :=
  let dateDirs := sortStr ((entries.filter (fun e => e.isDir)).map (fun e => e.name))
  match dateDirs.getLast? with
  | none => Except.error ("No date directories found in " ++ dataDir)
  | some newestDate =>
    match entries.find? (fun e => e.name == newestDate && e.isDir) with
    | none => Except.error "unreachable: chosen date entry not in listing"
    | some de =>
      let datePath := pjoin dataDir newestDate
      let hourDirs := sortStr ((de.hours.filter (fun h => h.isDir)).map (fun h => h.name))
      match hourDirs.getLast? with
      | none => Except.error ("No hour directories found in " ++ datePath)
      | some newestHour =>
        match de.hours.find? (fun h => h.name == newestHour && h.isDir) with
        | none => Except.error "unreachable: chosen hour entry not in listing"
        | some he =>
          let hourPath := pjoin datePath newestHour
          match (sortStr he.files).getLast? with
          | none => Except.error ("No files found in " ++ hourPath)
          | some newestFile => Except.ok (pjoin hourPath newestFile)

/-- Statement of the claim about get_newest_file in the words of the
claim itself: D is the lexicographically greatest subdirectory of the data
directory, H the lexicographically greatest subdirectory of D, F the
lexicographically last entry of H, the result is dataDir/D/H/F, and each
of the three empty listings raises ValueError. -/
def get_newest_file_spec (dataDir : String) (entries : List DateEntry) :
    Except String String :=
  match maxStr ((entries.filter (fun e => e.isDir)).map (fun e => e.name)) with
  | none => Except.error ("No date directories found in " ++ dataDir)
  | some newestDate =>
    match entries.find? (fun e => e.name == newestDate && e.isDir) with
    | none => Except.error "unreachable: chosen date entry not in listing"
    | some de =>
      let datePath := pjoin dataDir newestDate
      match maxStr ((de.hours.filter (fun h => h.isDir)).map (fun h => h.name)) with
      | none => Except.error ("No hour directories found in " ++ datePath)
      | some newestHour =>
        match de.hours.find? (fun h => h.name == newestHour && h.isDir) with
        | none => Except.error "unreachable: chosen hour entry not in listing"
        | some he =>
          let hourPath := pjoin datePath newestHour
          match maxStr he.files with
          | none => Except.error ("No files found in " ++ hourPath)
          | some newestFile => Except.ok (pjoin hourPath newestFile)

/-! ### Lemmas about common-prefix mount resolution -/

lemma commonPrefix2_prefix_left (a b : List String) : commonPrefix2 a b <+: a := by
  induction a generalizing b with
  | nil => cases b <;> simp [commonPrefix2]
  | cons x as ih =>
    cases b with
    | nil => simp [commonPrefix2]
    | cons y bs =>
      by_cases h : x = y
      · simpa [commonPrefix2, h, List.cons_prefix_cons] using ih bs
      · simp [commonPrefix2, h]

lemma commonPrefix2_prefix_right (a b : List String) : commonPrefix2 a b <+: b := by
  induction a generalizing b with
  | nil => cases b <;> simp [commonPrefix2]
  | cons x as ih =>
    cases b with
    | nil => simp [commonPrefix2]
    | cons y bs =>
      by_cases h : x = y
      · subst h
        simpa [commonPrefix2, List.cons_prefix_cons] using ih bs
      · simp [commonPrefix2, h]

lemma prefix_commonPrefix2 (q a b : List String) (ha : q <+: a) (hb : q <+: b) :
    q <+: commonPrefix2 a b := by
  induction q generalizing a b with
  | nil => exact List.nil_prefix
  | cons z zs ih =>
    obtain ⟨t, rfl⟩ := ha
    obtain ⟨u, hu⟩ := hb
    cases b with
    | nil => simp at hu
    | cons y bs =>
      have hz : z = y := by
        have := congrArg (fun l => l.head?) hu
        simpa using this
      subst hz
      have hzs : zs ++ u = bs := by
        simpa using congrArg List.tail hu
      have hstep : commonPrefix2 (z :: (zs ++ t)) (z :: bs)
          = z :: commonPrefix2 (zs ++ t) bs := by
        simp [commonPrefix2]
      rw [List.cons_append, hstep, List.cons_prefix_cons]
      exact ⟨rfl, ih (zs ++ t) bs (List.prefix_append zs t) ⟨u, hzs⟩⟩

lemma foldl_commonPrefix2_below (ps : List AbsPath) (p : AbsPath) :
    (ps.foldl commonPrefix2 p <+: p) ∧ ∀ q ∈ ps, ps.foldl commonPrefix2 p <+: q := by
  induction ps generalizing p with
  | nil => simp
  | cons b rest ih =>
    have h := ih (commonPrefix2 p b)
    refine ⟨h.1.trans (commonPrefix2_prefix_left p b), ?_⟩
    intro q hq
    rcases List.mem_cons.mp hq with rfl | hq
    · exact h.1.trans (commonPrefix2_prefix_right p q)
    · exact h.2 q hq

lemma prefix_foldl_commonPrefix2 (ps : List AbsPath) (p q : AbsPath)
    (hp : q <+: p) (hps : ∀ x ∈ ps, q <+: x) :
    q <+: ps.foldl commonPrefix2 p := by
  induction ps generalizing p with
  | nil => simpa using hp
  | cons b rest ih =>
    exact ih (commonPrefix2 p b)
      (prefix_commonPrefix2 q p b hp (hps b (by simp)))
      (fun x hx => hps x (by simp [hx]))

lemma relativeTo_under_root (p root : AbsPath) (h : root <+: p) :
    relativeTo p root = some (p.drop root.length) ∧
      root ++ p.drop root.length = p := by
  obtain ⟨t, rfl⟩ := h
  constructor
  · simp [relativeTo, List.isPrefixOf_iff_prefix, List.prefix_append]
  · simp [List.drop_left]

lemma hasLeadingSep_append (c r : String) (hne : c ≠ "")
    (h : hasLeadingSep c = false) : hasLeadingSep (c ++ r) = false := by
  have hdata : (c ++ r).data = c.data ++ r.data := String.data_append c r
  cases hc : c.data with
  | nil => exact absurd (String.ext hc) hne
  | cons ch rest =>
    have h2 : (ch == '/') = false := by
      simpa [hasLeadingSep, hc] using h
    simp [hasLeadingSep, hdata, hc, h2]

/-- Claim C4.  For every nonempty set of absolute paths, the mount-root
resolution used by run_dp3_subtract (os.path.commonpath over the parent
directories) returns the deepest common ancestor directory: a common
component prefix that every common prefix divides; translating any of the
input paths from that root succeeds and yields exactly the components
below the root, hence a relative path with no leading separator.  On the
concrete scenario /data/a/raw.ms, /data/a/sol.h5, /data/b/out.ms both the
orchestrator mount resolution and the subtract_sources script variant
resolve the root to /data and translate the three paths to a/raw.ms,
a/sol.h5 and b/out.ms, none of which carries a leading separator. -/
theorem mount_root_deepest_common_ancestor :
    (∀ (p : AbsPath) (ps : List AbsPath) (r : AbsPath),
        commonpath (p :: ps) = some r →
        (∀ q ∈ p :: ps, r <+: q) ∧
          ∀ q : AbsPath, (∀ x ∈ p :: ps, q <+: x) → q <+: r)
    ∧ (∀ (p : AbsPath) (ps : List AbsPath) (r : AbsPath),
        commonpath (ps.map pathParent) = some r → p ∈ ps →
        relativeTo p r = some (p.drop r.length) ∧ r ++ p.drop r.length = p)
    ∧ (∀ (c : String) (cs : List String), c ≠ "" → hasLeadingSep c = false →
        hasLeadingSep (renderRel (c :: cs)) = false)
    ∧ run_dp3_subtract_mount ["data", "a", "raw.ms"] ["data", "b", "out.ms"]
        ["data", "a", "sol.h5"]
        = some (["data"], ["a", "raw.ms"], ["b", "out.ms"], ["a", "sol.h5"])
    ∧ subtract_sources_mount ["data", "a", "raw.ms"] ["data", "a", "sol.h5"]
        ["data", "b", "out.ms"]
        = some (["data"], ["a", "raw.ms"], ["a", "sol.h5"], ["b", "out.ms"])
    ∧ renderRel ["a", "raw.ms"] = "a/raw.ms"
    ∧ renderRel ["a", "sol.h5"] = "a/sol.h5"
    ∧ renderRel ["b", "out.ms"] = "b/out.ms"
    ∧ hasLeadingSep (renderRel ["a", "raw.ms"]) = false
    ∧ hasLeadingSep (renderRel ["a", "sol.h5"]) = false
    ∧ hasLeadingSep (renderRel ["b", "out.ms"]) = false := by
  refine ⟨?_, ?_, ?_, by decide, by decide, by decide, by decide, by decide,
    by decide, by decide, by decide⟩
  · intro p ps r h
    have hr : r = ps.foldl commonPrefix2 p := by
      simpa [commonpath] using h.symm
    subst hr
    refine ⟨?_, ?_⟩
    · intro q hq
      rcases List.mem_cons.mp hq with rfl | hq
      · exact (foldl_commonPrefix2_below ps q).1
      · exact (foldl_commonPrefix2_below ps p).2 q hq
    · intro q hq
      exact prefix_foldl_commonPrefix2 ps p q (hq p (by simp))
        (fun x hx => hq x (by simp [hx]))
  · intro p ps r h hp
    cases ps with
    | nil => simp at hp
    | cons p0 rest =>
      have hpar : r <+: pathParent p := by
        have hr : r = (rest.map pathParent).foldl commonPrefix2 (pathParent p0) := by
          simpa [commonpath] using h.symm
        subst hr
        rcases List.mem_cons.mp hp with rfl | hp
        · exact (foldl_commonPrefix2_below (rest.map pathParent) (pathParent p)).1
        · exact (foldl_commonPrefix2_below (rest.map pathParent) (pathParent p0)).2
            (pathParent p) (List.mem_map_of_mem pathParent hp)
      exact relativeTo_under_root p r (hpar.trans (List.dropLast_prefix p))
  · intro c cs hne h
    cases cs with
    | nil => simpa [renderRel] using h
    | cons d ds =>
      show hasLeadingSep (c ++ "/" ++ renderRel (d :: ds)) = false
      rw [String.append_assoc]
      exact hasLeadingSep_append c ("/" ++ renderRel (d :: ds)) hne h

/-- Witness for C4: the general translation clause applied to the concrete
scenario paths, with every hypothesis discharged by computation. -/
theorem mount_root_deepest_common_ancestor_witness :
    relativeTo ["data", "a", "raw.ms"] ["data"]
        = some ((["data", "a", "raw.ms"] : AbsPath).drop (["data"] : AbsPath).length)
      ∧ ["data"] ++ (["data", "a", "raw.ms"] : AbsPath).drop (["data"] : AbsPath).length
        = ["data", "a", "raw.ms"] :=
  mount_root_deepest_common_ancestor.2.1 ["data", "a", "raw.ms"]
    [["data", "a", "raw.ms"], ["data", "b", "out.ms"], ["data", "a", "sol.h5"]]
    ["data"] (by decide) (by decide)

/-- Claim C7.  The subtract_sources script does fall back to the
filesystem root when the three paths share no component below the root,
and translation stays defined there.  The phaseshift_to_sun script does
not: its fallback test is str.startswith on rendered paths, so for
/ab/x.ms against /abc/out.ms (which share no ancestor below the root) the
parent /ab is kept as mount root because the string "/abc/out.ms" starts
with the string "/ab", and Path.relative_to then raises ValueError instead
of using the root mapping.  The third conjunct shows the fallback branch
of phaseshift_to_sun working when the rendered parent is not a string
prefix of the rendered output. -/
theorem phaseshift_no_root_fallback_bug :
    phaseshift_mount ["ab", "x.ms"] ["abc", "out.ms"]
        = Except.error "ValueError: path is not relative to mount root"
    ∧ subtract_sources_mount ["ab", "x.ms"] ["cfg", "src.txt"] ["abc", "out.ms"]
        = some (([] : AbsPath), ["ab", "x.ms"], ["cfg", "src.txt"], ["abc", "out.ms"])
    ∧ phaseshift_mount ["ab", "x.ms"] ["cfg", "out.ms"]
        = Except.ok (([] : AbsPath), ["ab", "x.ms"], ["cfg", "out.ms"]) := by
  refine ⟨rfl, by decide, rfl⟩

/-! ### Parset lifecycle and parset determinism -/

/-- Counterexample for C5: in the cited dev-variant run_dp3_flag_avg a
failing DP3 invocation (exit code 1) terminates the process while the
transient parset file dp3_flag_avg.parset still exists, so the parset is
not deleted on every exit path. -/
theorem dev_flag_avg_parset_left_behind :
    parsetAfter (dev_run_dp3_flag_avg_events 1) = true ∧
      parsetAfter (selfcal_run_dp3_calibration_events 0) = true := by
  exact ⟨rfl, rfl⟩

/-- Claim C5 as amended.  The orchestrator helper run_dp3_flag_avg in
pipeline_quick_proc_img.py deletes its transient parset on every exit path
(success and tool failure alike, through its finally block); the
dev-variant run_dp3_flag_avg deletes it only on the success path, and the
dev self-calibration stage run_dp3_calibration never deletes its per-round
parset, not even on success. -/
theorem parset_cleanup_per_stage :
    ∀ code : Nat,
      parsetAfter (pipeline_run_dp3_flag_avg_events code) = false ∧
      parsetAfter (dev_run_dp3_flag_avg_events code)
        = (if code = 0 then false else true) ∧
      parsetAfter (selfcal_run_dp3_calibration_events code) = true := by
  intro code
  by_cases h : code = 0 <;>
    simp [pipeline_run_dp3_flag_avg_events, dev_run_dp3_flag_avg_events,
      selfcal_run_dp3_calibration_events, parsetAfter, h]

/-- Claim C6.  The parset text of run_applycal_dp3 is a pure function of
the stage inputs: two calls with identical translated paths, solution
file name and calibration entries produce byte-identical text.  The last
conjunct pins one concrete rendering to its exact byte string. -/
theorem applycal_parset_deterministic :
    (∀ (mi1 mo1 s1 : String) (l1 : List String) (mi2 mo2 s2 : String)
        (l2 : List String),
      mi1 = mi2 → mo1 = mo2 → s1 = s2 → l1 = l2 →
      (applycal_parset mi1 mo1 s1 l1).data = (applycal_parset mi2 mo2 s2 l2).data ∧
        applycal_parset mi1 mo1 s1 l1 = applycal_parset mi2 mo2 s2 l2)
    ∧ applycal_parset "a.ms" "b.ms" "solution.h5" ["phase"]
      = "msin = a.ms\nmsout = b.ms\nsteps = [applycal]\napplycal.parmdb = solution.h5\napplycal.steps = [ phase ] \n\napplycal.phase.correction=phase000 \n" := by
  constructor
  · intro mi1 mo1 s1 l1 mi2 mo2 s2 l2 h1 h2 h3 h4
    subst h1; subst h2; subst h3; subst h4
    exact ⟨rfl, rfl⟩
  · rfl

/-- Witness for C6: the determinism clause applied at one concrete input,
every equality hypothesis discharged by rfl. -/
theorem applycal_parset_deterministic_witness :
    (applycal_parset "in.ms" "out.ms" "solution.h5" ["phase"]).data
        = (applycal_parset "in.ms" "out.ms" "solution.h5" ["phase"]).data ∧
      applycal_parset "in.ms" "out.ms" "solution.h5" ["phase"]
        = applycal_parset "in.ms" "out.ms" "solution.h5" ["phase"] :=
  applycal_parset_deterministic.1 "in.ms" "out.ms" "solution.h5" ["phase"]
    "in.ms" "out.ms" "solution.h5" ["phase"] rfl rfl rfl rfl

/-! ### Fail-fast stage sequencing -/

lemma runStages_snd_true_iff {α : Type} (ok : α → Bool) (l : List α) :
    (runStages ok l).2 = true ↔ ∀ s ∈ l, ok s = true := by
  induction l with
  | nil => simp [runStages]
  | cons s rest ih =>
    cases h : ok s <;> simp [runStages, h, ih]

lemma runStages_firstFail {α : Type} (ok : α → Bool) (pre : List α) (s : α)
    (post : List α) (hpre : ∀ t ∈ pre, ok t = true) (hs : ok s = false) :
    runStages ok (pre ++ s :: post) = (pre ++ [s], false) := by
  induction pre with
  | nil => simp [runStages, hs]
  | cons a rest ih =>
    have ha : ok a = true := hpre a (by simp)
    have ih2 := ih (fun t ht => hpre t (by simp [ht]))
    simp [runStages, ha, ih2]

/-- Counterexample for C1: in a run of the dev self-calibration pipeline
where the round-1 DP3 calibration container invocation returns exit code 1
(and every other stage succeeds), the process exits nonzero and no later
stage is invoked, but no RunReport is persisted: report generation lives
only on the success branch of main. -/
theorem selfcal_failed_run_writes_no_report :
    scExitCode scFailCal1 2 = 1 ∧ scReportStatus scFailCal1 2 = none ∧
      (scRun scFailCal1 2).1
        = [SCStage.podmanCheck, SCStage.pullImage, SCStage.testDP3,
           SCStage.testWsclean, SCStage.initialImage, SCStage.calRound 1] := by
  exact ⟨rfl, rfl, rfl⟩

/-- Claim C1 as amended.  On any stage failure the dev self-calibration
pipeline exits nonzero and invokes no stage after the first failing one,
but it does not persist a RunReport on the failure path: the report (with
its fixed status string "completed") is written exactly when every stage
succeeded and the process exits 0. -/
theorem selfcal_fail_fast_no_failure_report :
    ∀ (codes : SCStage → Nat) (n : Nat),
      (scReportStatus codes n = some "completed" ↔ scExitCode codes n = 0) ∧
      (scExitCode codes n ≠ 0 → scReportStatus codes n = none) ∧
      (scExitCode codes n = 0 ↔ ∀ s ∈ scStageSeq n, codes s = 0) ∧
      (∀ (pre : List SCStage) (s : SCStage) (post : List SCStage),
        scStageSeq n = pre ++ s :: post → codes s ≠ 0 →
        (∀ t ∈ pre, codes t = 0) →
        scExitCode codes n = 1 ∧ (scRun codes n).1 = pre ++ [s]) := by
  intro codes n
  have hiff : (scRun codes n).2 = true ↔ ∀ s ∈ scStageSeq n, codes s = 0 := by
    simpa using runStages_snd_true_iff (fun s => codes s == 0) (scStageSeq n)
  refine ⟨?_, ?_, ?_, ?_⟩
  · cases hb : (scRun codes n).2 <;> simp [scReportStatus, scExitCode, hb]
  · cases hb : (scRun codes n).2 <;> simp [scReportStatus, scExitCode, hb]
  · cases hb : (scRun codes n).2 <;>
      simp [scExitCode, hb] <;> simpa [hb] using hiff
  · intro pre s post hseq hs hpre
    have hrun : scRun codes n = (pre ++ [s], false) := by
      have := runStages_firstFail (fun t => codes t == 0) pre s post
        (fun t ht => by simpa using hpre t ht) (by simpa using hs)
      simpa [scRun, hseq] using this
    constructor
    · simp [scExitCode, hrun]
    · simp [hrun]

/-- Witness for C1: the fail-fast clause of the amended theorem applied to
the concrete failing run, all hypotheses discharged by computation. -/
theorem selfcal_fail_fast_no_failure_report_witness :
    scExitCode scFailCal1 2 = 1 ∧
      (scRun scFailCal1 2).1
        = [SCStage.podmanCheck, SCStage.pullImage, SCStage.testDP3,
            SCStage.testWsclean, SCStage.initialImage] ++ [SCStage.calRound 1] :=
  (selfcal_fail_fast_no_failure_report scFailCal1 2).2.2.2
    [SCStage.podmanCheck, SCStage.pullImage, SCStage.testDP3,
      SCStage.testWsclean, SCStage.initialImage]
    (SCStage.calRound 1)
    [SCStage.imageRound 1, SCStage.calRound 2, SCStage.imageRound 2]
    rfl (by decide) (by decide)

/-- Stage-code environment for the orchestrator in which the DP3 gaincal
stage returns exit code 1 and every other stage succeeds. -/
def pqpFailGaincal : PStage → Nat
  | PStage.gaincal => 1
  | _ => 0

lemma pqpMain_usage_error (argv : List String) (ex : String → Bool)
    (codes : PStage → Nat) (hl : argv.length < 3) :
    pqpMain argv ex codes = (1, [], "") := by
  simp [pqpMain, hl]

lemma pqpMain_args_ok (argv : List String) (ex : String → Bool)
    (codes : PStage → Nat) (hl : ¬ argv.length < 3)
    (h1 : ex (argv.getD 1 "") = true) (h2 : ex (argv.getD 2 "") = true) :
    pqpMain argv ex codes =
      ((if (runStages (fun s => codes s == 0) pipelineStageSeq).2 then 0 else 1),
        (runStages (fun s => codes s == 0) pipelineStageSeq).1,
        if 3 < argv.length then argv.getD 3 "" else "proc") := by
  have h1e : ex (argv[1]?.getD "") = true := by simpa using h1
  have h2e : ex (argv[2]?.getD "") = true := by simpa using h2
  simp [pqpMain, hl, h1e, h2e]

lemma pqpMain_missing_raw (argv : List String) (ex : String → Bool)
    (codes : PStage → Nat) (hl : ¬ argv.length < 3)
    (h1 : ex (argv.getD 1 "") = false) :
    pqpMain argv ex codes =
      (1, [], if 3 < argv.length then argv.getD 3 "" else "proc") := by
  have h1e : ex (argv[1]?.getD "") = false := by simpa using h1
  simp [pqpMain, hl, h1e]

lemma pqpMain_missing_gaintable (argv : List String) (ex : String → Bool)
    (codes : PStage → Nat) (hl : ¬ argv.length < 3)
    (h1 : ex (argv.getD 1 "") = true) (h2 : ex (argv.getD 2 "") = false) :
    pqpMain argv ex codes =
      (1, [], if 3 < argv.length then argv.getD 3 "" else "proc") := by
  have h1e : ex (argv[1]?.getD "") = true := by simpa using h1
  have h2e : ex (argv[2]?.getD "") = false := by simpa using h2
  simp [pqpMain, hl, h1e, h2e]

/-- Claim C8.  The orchestrator entry point takes the positional arguments
raw MS, gaintable and optional output prefix (defaulting to "proc"); it
exits 1 with no stage invoked on a usage error or a missing input file,
exits 1 invoking nothing after the first failing stage when a stage fails,
and exits 0 exactly when both inputs exist and every stage of the fixed
sequence succeeds. -/
theorem pipeline_cli_exit_codes :
    ∀ (argv : List String) (ex : String → Bool) (codes : PStage → Nat),
      ((pqpMain argv ex codes).1 = 0 ↔
        (3 ≤ argv.length ∧ ex (argv.getD 1 "") = true ∧
          ex (argv.getD 2 "") = true ∧ ∀ s ∈ pipelineStageSeq, codes s = 0)) ∧
      (argv.length < 3 → pqpMain argv ex codes = (1, [], "")) ∧
      (3 ≤ argv.length → ex (argv.getD 1 "") = false →
        (pqpMain argv ex codes).1 = 1 ∧ (pqpMain argv ex codes).2.1 = []) ∧
      (3 ≤ argv.length → ex (argv.getD 1 "") = true →
        ex (argv.getD 2 "") = false →
        (pqpMain argv ex codes).1 = 1 ∧ (pqpMain argv ex codes).2.1 = []) ∧
      (argv.length = 3 → ex (argv.getD 1 "") = true →
        ex (argv.getD 2 "") = true → (pqpMain argv ex codes).2.2 = "proc") ∧
      (∀ (pre : List PStage) (s : PStage) (post : List PStage),
        pipelineStageSeq = pre ++ s :: post → codes s ≠ 0 →
        (∀ t ∈ pre, codes t = 0) → 3 ≤ argv.length →
        ex (argv.getD 1 "") = true → ex (argv.getD 2 "") = true →
        (pqpMain argv ex codes).1 = 1 ∧
          (pqpMain argv ex codes).2.1 = pre ++ [s]) := by
  intro argv ex codes
  by_cases hl : argv.length < 3
  · have h0 := pqpMain_usage_error argv ex codes hl
    refine ⟨?_, fun _ => h0, ?_, ?_, ?_, ?_⟩
    · rw [h0]
      constructor
      · intro h; exact absurd h one_ne_zero
      · rintro ⟨hle, -, -, -⟩; omega
    · intro hle _; exact absurd hle (by omega)
    · intro hle _ _; exact absurd hle (by omega)
    · intro hlen _ _; exact absurd hlen (by omega)
    · intro _ _ _ _ _ _ hle _ _; exact absurd hle (by omega)
  · have h3 : 3 ≤ argv.length := by omega
    by_cases h1 : ex (argv.getD 1 "") = true
    · by_cases h2 : ex (argv.getD 2 "") = true
      · have hmain := pqpMain_args_ok argv ex codes hl h1 h2
        have hiff : (runStages (fun s => codes s == 0) pipelineStageSeq).2 = true ↔
            ∀ s ∈ pipelineStageSeq, codes s = 0 := by
          simpa using runStages_snd_true_iff (fun s => codes s == 0) pipelineStageSeq
        refine ⟨?_, ?_, ?_, ?_, ?_, ?_⟩
        · rw [hmain]
          constructor
          · intro h
            refine ⟨h3, h1, h2, hiff.mp ?_⟩
            cases hb : (runStages (fun s => codes s == 0) pipelineStageSeq).2 with
            | true => rfl
            | false => rw [hb] at h; exact absurd h (by simp)
          · rintro ⟨-, -, -, hall⟩
            simp [hiff.mpr hall]
        · intro h; exact absurd h (by omega)
        · intro _ hf; rw [h1] at hf; cases hf
        · intro _ _ hf; rw [h2] at hf; cases hf
        · intro hlen _ _
          rw [hmain]
          simp [hlen]
        · intro pre s post hseq hs hpre _ _ _
          have hrun : runStages (fun t => codes t == 0) pipelineStageSeq
              = (pre ++ [s], false) := by
            rw [hseq]
            exact runStages_firstFail (fun t => codes t == 0) pre s post
              (fun t ht => by simpa using hpre t ht) (by simpa using hs)
          rw [hmain, hrun]
          exact ⟨rfl, rfl⟩
      · have hf2 : ex (argv.getD 2 "") = false := by
          cases hx : ex (argv.getD 2 "") with
          | true => exact absurd hx h2
          | false => rfl
        have hmain := pqpMain_missing_gaintable argv ex codes hl h1 hf2
        refine ⟨?_, ?_, ?_, ?_, ?_, ?_⟩
        · rw [hmain]
          constructor
          · intro h; exact absurd h one_ne_zero
          · rintro ⟨-, -, hx, -⟩; exact absurd hx h2
        · intro h; exact absurd h (by omega)
        · intro _ hf; rw [h1] at hf; cases hf
        · intro _ _ _; rw [hmain]; exact ⟨rfl, rfl⟩
        · intro hlen _ _; rw [hmain]; simp [hlen]
        · intro _ _ _ _ _ _ _ _ hx; exact absurd hx h2
    · have hf1 : ex (argv.getD 1 "") = false := by
        cases hx : ex (argv.getD 1 "") with
        | true => exact absurd hx h1
        | false => rfl
      have hmain := pqpMain_missing_raw argv ex codes hl hf1
      refine ⟨?_, ?_, ?_, ?_, ?_, ?_⟩
      · rw [hmain]
        constructor
        · intro h; exact absurd h one_ne_zero
        · rintro ⟨-, hx, -, -⟩; exact absurd hx h1
      · intro h; exact absurd h (by omega)
      · intro _ _; rw [hmain]; exact ⟨rfl, rfl⟩
      · intro _ hx; exact absurd hx h1
      · intro hlen hx _; exact absurd hx h1
      · intro _ _ _ _ _ _ _ hx; exact absurd hx h1

/-- Witness for C8: the fail-fast clause applied to a concrete invocation
with three arguments, both inputs present, and a failing gaincal stage. -/
theorem pipeline_cli_exit_codes_witness :
    (pqpMain ["prog", "raw.ms", "cal.bcal"] (fun _ => true) pqpFailGaincal).1 = 1 ∧
      (pqpMain ["prog", "raw.ms", "cal.bcal"] (fun _ => true) pqpFailGaincal).2.1
        = [PStage.casaApplycal, PStage.dp3FlagAvg, PStage.wscleanSelfcal]
            ++ [PStage.gaincal] :=
  (pipeline_cli_exit_codes ["prog", "raw.ms", "cal.bcal"] (fun _ => true)
      pqpFailGaincal).2.2.2.2.2
    [PStage.casaApplycal, PStage.dp3FlagAvg, PStage.wscleanSelfcal]
    PStage.gaincal
    [PStage.applycalDP3, PStage.wscleanSource, PStage.dp3Subtract,
      PStage.phaseshiftSun, PStage.wscleanFinal, PStage.wscleanDebug]
    rfl (by decide) (by decide) (by decide) rfl rfl

/-! ### Self-calibration loop rounds -/

lemma selfcalLoopAux_length (stem : String) :
    ∀ (k i : Nat) (cur : String), (selfcalLoopAux stem k i cur).1.length = k := by
  intro k
  induction k with
  | zero => intro i cur; rfl
  | succ k ih => intro i cur; simp [selfcalLoopAux, ih]

lemma selfcalLoopAux_idx (stem : String) :
    ∀ (k i : Nat) (cur : String),
      (selfcalLoopAux stem k i cur).1.map SCRound.idx = List.range' i k := by
  intro k
  induction k with
  | zero => intro i cur; rfl
  | succ k ih => intro i cur; simp [selfcalLoopAux, ih, List.range'_succ]

lemma selfcalLoopAux_outputName (stem : String) :
    ∀ (k i : Nat) (cur : String), ∀ rd ∈ (selfcalLoopAux stem k i cur).1,
      rd.output = calOutputName stem rd.idx := by
  intro k
  induction k with
  | zero => intro i cur rd h; simp [selfcalLoopAux] at h
  | succ k ih =>
    intro i cur rd h
    simp only [selfcalLoopAux, List.mem_cons] at h
    rcases h with rfl | h
    · rfl
    · exact ih (i + 1) (calOutputName stem i) rd h

lemma selfcalLoopAux_input_zero (stem : String) (k i : Nat) (cur : String) :
    ((selfcalLoopAux stem (k + 1) i cur).1[0]?).map SCRound.input = some cur := by
  simp [selfcalLoopAux]

lemma selfcalLoopAux_final (stem : String) :
    ∀ (k i : Nat) (cur : String),
      (selfcalLoopAux stem (k + 1) i cur).2 = calOutputName stem (i + k) := by
  intro k
  induction k with
  | zero => intro i cur; simp [selfcalLoopAux]
  | succ k ih =>
    intro i cur
    have hstep := ih (i + 1) (calOutputName stem i)
    show (selfcalLoopAux stem (k + 1) (i + 1) (calOutputName stem i)).2
      = calOutputName stem (i + (k + 1))
    rw [hstep]
    congr 1
    omega

lemma selfcalLoopAux_chain (stem : String) :
    ∀ (k i : Nat) (cur : String) (j : Nat), j + 1 < k →
      ((selfcalLoopAux stem k i cur).1[j + 1]?).map SCRound.input
        = ((selfcalLoopAux stem k i cur).1[j]?).map SCRound.output := by
  intro k
  induction k with
  | zero => intro i cur j h; omega
  | succ k ih =>
    intro i cur j h
    cases j with
    | zero =>
      cases k with
      | zero => omega
      | succ k2 =>
        simp only [selfcalLoopAux, List.getElem?_cons_succ, List.getElem?_cons_zero]
        rfl
    | succ j2 =>
      simp only [selfcalLoopAux, List.getElem?_cons_succ]
      exact ih (i + 1) (calOutputName stem i) j2 (by omega)

lemma getLast?_cons_ne {α : Type} (a : α) (l : List α) (h : l ≠ []) :
    (a :: l).getLast? = l.getLast? := by
  cases l with
  | nil => exact absurd rfl h
  | cons b t => exact List.getLast?_cons_cons

lemma selfcalLoopAux_last_output (stem : String) :
    ∀ (k i : Nat) (cur : String),
      ((selfcalLoopAux stem (k + 1) i cur).1.getLast?).map SCRound.output
        = some ((selfcalLoopAux stem (k + 1) i cur).2) := by
  intro k
  induction k with
  | zero => intro i cur; simp [selfcalLoopAux]
  | succ k ih =>
    intro i cur
    have hlast := ih (i + 1) (calOutputName stem i)
    have hne : (selfcalLoopAux stem (k + 1) (i + 1) (calOutputName stem i)).1 ≠ [] := by
      intro hnil
      have := selfcalLoopAux_length stem (k + 1) (i + 1) (calOutputName stem i)
      rw [hnil] at this
      simp at this
    show ((⟨i, cur, calOutputName stem i⟩ ::
        (selfcalLoopAux stem (k + 1) (i + 1) (calOutputName stem i)).1).getLast?).map
          SCRound.output = _
    rw [getLast?_cons_ne _ _ hne]
    exact hlast

/-- Claim C2.  The self-calibration loop with a configured iteration count
of 0 performs no round: it produces no applied measurement-set artifact
and the current measurement set after the loop is the original input,
unchanged (the loop does not default to one round). -/
theorem selfcal_zero_rounds_identity :
    ∀ msName stem : String, selfcalLoop msName stem 0 = ([], msName) := by
  intro msName stem
  rfl

/-- Claim C3.  For every positive round count n the self-calibration loop
performs exactly n rounds whose indices are exactly 1..n (distinct), every
round writes the applied measurement set named with its own round index,
round 1 consumes the original input, each later round consumes exactly the
previous round output, and the final current measurement set of the loop
is the round-n applied artifact. -/
theorem selfcal_rounds_chain :
    ∀ (msName stem : String) (n : Nat), 0 < n →
      ((selfcalLoop msName stem n).1.length = n) ∧
      ((selfcalLoop msName stem n).1.map SCRound.idx = List.range' 1 n) ∧
      (((selfcalLoop msName stem n).1.map SCRound.idx).Nodup) ∧
      (∀ rd ∈ (selfcalLoop msName stem n).1,
        rd.output = calOutputName stem rd.idx) ∧
      (((selfcalLoop msName stem n).1[0]?).map SCRound.input = some msName) ∧
      (∀ j : Nat, j + 1 < n →
        ((selfcalLoop msName stem n).1[j + 1]?).map SCRound.input
          = ((selfcalLoop msName stem n).1[j]?).map SCRound.output) ∧
      ((selfcalLoop msName stem n).2 = calOutputName stem n) ∧
      (((selfcalLoop msName stem n).1.getLast?).map SCRound.output
        = some ((selfcalLoop msName stem n).2)) := by
  intro msName stem n hn
  obtain ⟨m, rfl⟩ : ∃ m, n = m + 1 := ⟨n - 1, by omega⟩
  refine ⟨selfcalLoopAux_length stem (m + 1) 1 msName,
    selfcalLoopAux_idx stem (m + 1) 1 msName, ?_,
    selfcalLoopAux_outputName stem (m + 1) 1 msName,
    selfcalLoopAux_input_zero stem m 1 msName,
    fun j hj => selfcalLoopAux_chain stem (m + 1) 1 msName j hj, ?_, ?_⟩
  · show (List.map SCRound.idx (selfcalLoopAux stem (m + 1) 1 msName).1).Nodup
    rw [selfcalLoopAux_idx stem (m + 1) 1 msName]
    exact List.nodup_range' 1 (m + 1)
  · show (selfcalLoopAux stem (m + 1) 1 msName).2 = _
    rw [selfcalLoopAux_final stem m 1 msName]
    congr 1
    omega
  · exact selfcalLoopAux_last_output stem m 1 msName

/-- Witness for C3: the loop at round count 3 over the input x.ms, with
the positivity hypothesis discharged by computation. -/
theorem selfcal_rounds_chain_witness :
    (selfcalLoop "x.ms" "x" 3).1.length = 3 ∧
      (selfcalLoop "x.ms" "x" 3).2 = calOutputName "x" 3 :=
  ⟨(selfcal_rounds_chain "x.ms" "x" 3 (by decide)).1,
    (selfcal_rounds_chain "x.ms" "x" 3 (by decide)).2.2.2.2.2.2.1⟩

/-! ### Solution-table outlier reset -/

/-- Claim C9.  Under reset mode, for every solution array and every
nonnegative sigma multiplier: any numeric amplitude entry whose squared
deviation from the antenna-axis nanmean of its (time, frequency,
polarization) slice is at most nSigma squared times the slice variance
(that is, the entry lies within nSigma standard deviations of the slice
mean) keeps both its amplitude and its weight, any numeric entry with
strictly larger squared deviation (outside the band) gets amplitude NaN
and weight 0, and all four array dimensions are preserved. -/
theorem reset_solution_outliers_band :
    ∀ (s : SolArr) (nSigma : ℚ), 0 ≤ nSigma →
      ∀ (i : Fin s.T) (j : Fin s.F) (a : Fin s.A) (k : Fin s.P) (m s2 q : ℚ),
        nanmean (antSlice s i j k) = some m →
        nanvar (antSlice s i j k) = some s2 →
        s.amp i j a k = FVal.val q →
        (((q - m) ^ 2 ≤ nSigma ^ 2 * s2 →
          (reset_solution_outliers nSigma true s).amp i j a k = s.amp i j a k ∧
            (reset_solution_outliers nSigma true s).weight i j a k
              = s.weight i j a k) ∧
        (nSigma ^ 2 * s2 < (q - m) ^ 2 →
          (reset_solution_outliers nSigma true s).amp i j a k = FVal.nan ∧
            (reset_solution_outliers nSigma true s).weight i j a k = FVal.val 0) ∧
        (reset_solution_outliers nSigma true s).T = s.T ∧
        (reset_solution_outliers nSigma true s).F = s.F ∧
        (reset_solution_outliers nSigma true s).A = s.A ∧
        (reset_solution_outliers nSigma true s).P = s.P) := by
  intro s nSigma _ i j a k m s2 q hm hv hq
  have hout : isOutlier nSigma (antSlice s i j k) (s.amp i j a k)
      = decide (nSigma ^ 2 * s2 < (q - m) ^ 2) := by
    simp only [isOutlier, hq, hm, hv]
  refine ⟨?_, ?_, rfl, rfl, rfl, rfl⟩
  · intro hle
    have hfalse : isOutlier nSigma (antSlice s i j k) (s.amp i j a k) = false := by
      rw [hout]
      exact decide_eq_false (not_lt.mpr hle)
    constructor <;> simp [reset_solution_outliers, hfalse]
  · intro hlt
    have htrue : isOutlier nSigma (antSlice s i j k) (s.amp i j a k) = true := by
      rw [hout]
      exact decide_eq_true hlt
    constructor <;> simp [reset_solution_outliers, htrue]

/-- Concrete solution array: one time step, one frequency, one
polarization, four antennas with amplitudes 1, 1, 1, 9 and unit weights. -/
abbrev exampleSol : SolArr :=
  { T := 1, F := 1, A := 4, P := 1,
    amp := fun _ _ a _ => if a.val = 3 then FVal.val 9 else FVal.val 1,
    weight := fun _ _ _ _ => FVal.val 1 }

/-- Witness for C9: over the example slice (mean 3, variance 12) with
nSigma 1, antenna 0 lies inside the band and keeps amplitude and weight,
antenna 3 lies outside and is reset to NaN with weight 0. -/
theorem reset_solution_outliers_band_witness :
    (reset_solution_outliers 1 true exampleSol).amp ⟨0, by decide⟩ ⟨0, by decide⟩
        ⟨0, by decide⟩ ⟨0, by decide⟩
        = exampleSol.amp ⟨0, by decide⟩ ⟨0, by decide⟩ ⟨0, by decide⟩ ⟨0, by decide⟩ ∧
      (reset_solution_outliers 1 true exampleSol).weight ⟨0, by decide⟩
          ⟨0, by decide⟩ ⟨0, by decide⟩ ⟨0, by decide⟩
        = exampleSol.weight ⟨0, by decide⟩ ⟨0, by decide⟩ ⟨0, by decide⟩
            ⟨0, by decide⟩ ∧
      (reset_solution_outliers 1 true exampleSol).amp ⟨0, by decide⟩ ⟨0, by decide⟩
          ⟨3, by decide⟩ ⟨0, by decide⟩ = FVal.nan ∧
      (reset_solution_outliers 1 true exampleSol).weight ⟨0, by decide⟩
          ⟨0, by decide⟩ ⟨3, by decide⟩ ⟨0, by decide⟩ = FVal.val 0 := by
  have hm : nanmean (antSlice exampleSol ⟨0, by decide⟩ ⟨0, by decide⟩
      ⟨0, by decide⟩) = some 3 := by
    norm_num [nanmean, numVals, antSlice, exampleSol, List.ofFn_succ,
      List.filterMap_cons]
  have hv : nanvar (antSlice exampleSol ⟨0, by decide⟩ ⟨0, by decide⟩
      ⟨0, by decide⟩) = some 12 := by
    norm_num [nanvar, nanmean, numVals, antSlice, exampleSol, List.ofFn_succ,
      List.filterMap_cons]
  have h1 := (reset_solution_outliers_band exampleSol 1 (by norm_num)
    ⟨0, by decide⟩ ⟨0, by decide⟩ ⟨0, by decide⟩ ⟨0, by decide⟩
    3 12 1 hm hv rfl).1 (by norm_num)
  have h2 := ((reset_solution_outliers_band exampleSol 1 (by norm_num)
    ⟨0, by decide⟩ ⟨0, by decide⟩ ⟨3, by decide⟩ ⟨0, by decide⟩
    3 12 9 hm hv rfl).2).1 (by norm_num)
  exact ⟨h1.1, h1.2, h2.1, h2.2⟩

/-! ### Newest-file discovery -/

lemma foldl_max_mem_ub {α : Type} [LinearOrder α] (xs : List α) (x : α) :
    xs.foldl max x ∈ x :: xs ∧ ∀ z ∈ x :: xs, z ≤ xs.foldl max x := by
  induction xs generalizing x with
  | nil => simp
  | cons y ys ih =>
    have h := ih (max x y)
    have hfold : List.foldl max x (y :: ys) = List.foldl max (max x y) ys := rfl
    constructor
    · rw [hfold]
      rcases List.mem_cons.mp h.1 with hm | hm
      · rcases max_choice x y with hc | hc <;> rw [hm, hc] <;> simp
      · simp [hm]
    · intro z hz
      rcases List.mem_cons.mp hz with rfl | hz
      · exact le_trans (le_max_left z y) (h.2 _ (by simp))
      · rcases List.mem_cons.mp hz with rfl | hz
        · exact le_trans (le_max_right x z) (h.2 _ (by simp))
        · exact h.2 z (by simp [hz])

lemma sorted_getLast_ub {α : Type} [LinearOrder α] :
    ∀ (l : List α), List.Sorted (· ≤ ·) l → ∀ m, l.getLast? = some m →
      ∀ x ∈ l, x ≤ m := by
  intro l
  induction l with
  | nil => intro _ m hm; cases hm
  | cons a t ih =>
    intro hs m hm x hx
    rcases List.sorted_cons.mp hs with ⟨ha, hst⟩
    cases t with
    | nil =>
      have hma : a = m := by simpa using hm
      rcases List.mem_singleton.mp hx with rfl
      exact le_of_eq hma
    | cons b t2 =>
      rw [List.getLast?_cons_cons] at hm
      have hmem : m ∈ b :: t2 := by
        have := List.getLast?_eq_getLast (b :: t2) (by simp)
        rw [this] at hm
        obtain rfl : (b :: t2).getLast (by simp) = m := by
          simpa using hm
        exact List.getLast_mem (by simp)
      rcases List.mem_cons.mp hx with rfl | hx
      · exact ha m hmem
      · exact ih hst m hm x hx

lemma sortStr_getLast?_eq_maxStr (l : List String) :
    (sortStr l).getLast? = maxStr l := by
  cases l with
  | nil => rfl
  | cons x xs =>
    have hperm : (sortStr (x :: xs)).Perm (x :: xs) :=
      List.perm_insertionSort _ (x :: xs)
    have hsorted : List.Sorted (· ≤ ·) (sortStr (x :: xs)) :=
      List.sorted_insertionSort _ (x :: xs)
    have hne : sortStr (x :: xs) ≠ [] := by
      intro h
      have := hperm.length_eq
      rw [h] at this
      simp at this
    have hm : (sortStr (x :: xs)).getLast? = some ((sortStr (x :: xs)).getLast hne) :=
      List.getLast?_eq_getLast _ hne
    have hmem : (sortStr (x :: xs)).getLast hne ∈ x :: xs :=
      hperm.mem_iff.mp (List.getLast_mem hne)
    have hub : ∀ z ∈ x :: xs, z ≤ (sortStr (x :: xs)).getLast hne := by
      intro z hz
      exact sorted_getLast_ub _ hsorted _ hm z (hperm.mem_iff.mpr hz)
    have hfold := foldl_max_mem_ub xs x
    have heq : (sortStr (x :: xs)).getLast hne = xs.foldl max x :=
      le_antisymm (hfold.2 _ hmem) (hub _ hfold.1)
    rw [hm, heq]
    rfl

/-- Claim C10.  The newest-file discovery of realtime_quick.py equals, for
every base directory listing, the specification written from the claim:
the result path is dataDir/D/H/F with D the lexicographically greatest
subdirectory of the data directory, H the lexicographically greatest
subdirectory of D and F the lexicographically last entry of H (selection
purely by name sort, no modification time in the model), and ValueError is
raised exactly on the three empty listings distinguished by the
specification function. -/
theorem get_newest_file_by_name_sort :
    ∀ (dataDir : String) (entries : List DateEntry),
      get_newest_file dataDir entries = get_newest_file_spec dataDir entries := by
  intro d es
  simp only [get_newest_file, get_newest_file_spec, sortStr_getLast?_eq_maxStr]
